import Mathlib

/-!
Verification development for the ddoli session-orchestration server.

The Python source (src/main.py, src/app/shared.py, src/app/terminal_routes.py)
is shallowly embedded below: pure helpers become Lean functions, the stateful
orchestration paths become explicit outcome records, machine data (JSON lines,
Python dicts) become small inductive types.  Python strings are kept as Lean
strings, but every Python string operation used by the code (slicing,
startswith, strip, split with maxsplit, containment) is implemented over the
underlying character list so that all definitions compute.
-/

/-! ### Python string primitives -/

/-- Python s.startswith(pre). -/
def pyStartsWith (s pre : String) : Bool :=
  pre.data.isPrefixOf s.data

/-- Python s[n:] (slicing by code points). -/
def pyDrop (s : String) (n : Nat) : String :=
  ⟨s.data.drop n⟩

/-- Python s[:n] (slicing by code points). -/
def pyTake (s : String) (n : Nat) : String :=
  ⟨s.data.take n⟩

/-- Python s.strip(): remove leading and trailing whitespace. -/
def pyStrip (s : String) : String :=
  ⟨((s.data.dropWhile Char.isWhitespace).reverse.dropWhile Char.isWhitespace).reverse⟩

/-- Helper for Python substring containment. -/
def containsSubAux (sub : List Char) : List Char → Bool
  | [] => sub.isPrefixOf []
  | c :: rest => sub.isPrefixOf (c :: rest) || containsSubAux sub rest

/-- Python `sub in s` on strings. -/
def pyContainsSub (s sub : String) : Bool :=
  containsSubAux sub.data s.data

/-- Find the first occurrence of sep in s; return the part before it and the
part after it.  Helper for Python str.split with a maxsplit bound. -/
def splitOnce (sep : List Char) : List Char → Option (List Char × List Char)
  | [] => if sep.isPrefixOf ([] : List Char) then some ([], []) else none
  | c :: rest =>
    if sep.isPrefixOf (c :: rest) then some ([], (c :: rest).drop sep.length)
    else (splitOnce sep rest).map (fun p => (c :: p.1, p.2))

/-- Python s.split(sep, maxsplit) on character lists (sep nonempty). -/
def pySplitChars (sep : List Char) : Nat → List Char → List (List Char)
  | 0, s => [s]
  | k + 1, s =>
    match splitOnce sep s with
    | none => [s]
    | some (pre, post) => pre :: pySplitChars sep k post

/-- Python s.split(sep, maxsplit). -/
def pySplit (s sep : String) (maxsplit : Nat) : List String :=
  (pySplitChars sep.data maxsplit s.data).map (fun l => ⟨l⟩)

/-- Python s.split(sep, maxsplit)[-1]: the last fragment (split never returns
an empty list, so the default is irrelevant). -/
def pySplitLast (s sep : String) (maxsplit : Nat) : String :=
  (pySplit s sep maxsplit).getLastD ""

/-! ### Python values reachable inside a tool result

The nested payloads that `process_tool_result` inspects are either strings or
arbitrary other Python values; for the latter only their truthiness and their
`str()` rendering are ever observed. -/

/-- A Python value as observed by the tool-result fallback path: either a
string, or any other value of which only the truthiness and the str()
rendering matter. -/
inductive PyVal where
  | pstr (s : String)
  | pother (truthy : Bool) (rendered : String)
deriving DecidableEq, Repr

/-- Python truthiness of a PyVal (a string is truthy iff nonempty). -/
def PyVal.isTruthy : PyVal → Bool
  | .pstr s => s ≠ ""
  | .pother t _ => t

/-- Python `a or b or fallback` over two optional dict lookups, as in
`tool_result.get("content") or tool_result.get("result") or fallback`
(a missing key yields None, which is falsy). -/
def pyOrChain (a b : Option PyVal) (fallback : PyVal) : PyVal :=
  match a with
  | some v =>
    if v.isTruthy then v
    else match b with
      | some w => if w.isTruthy then w else fallback
      | none => fallback
  | none =>
    match b with
    | some w => if w.isTruthy then w else fallback
    | none => fallback

/-- Python str() of a PyVal: a string renders as itself, any other value by
its recorded rendering. -/
def PyVal.render : PyVal → String
  | .pstr s => s
  | .pother _ r => r

/-! ### The canonical event model (src/app/shared.py)

Events appended to a response's event log by `parse_cli_stream`,
`process_tool_result` and the orchestrator's result hook. -/

/-- One structured event of a response's event log. -/
inductive Event where
  | init (sessionId : String)
  | text (t : String)
  | tool_use (id name command : String)
  | edit_result (toolId filePath : String) (patch : List PyVal)
  | read_result (toolId filePath content : String)
  | bash_result (toolId command stdoutText stderrText : String) (exitCode : Int)
  | tool_output (toolId output : String)
  | result (t : String) (contextPercent : ℚ)
deriving DecidableEq, Repr

/-- The queued tool-call record built from an assistant tool_use item:
`{"id": ..., "name": ..., "input": {...}}`; of the input dict only the
"command" entry is ever read (default ""). -/
structure ToolInfo where
  id : String
  name : String
  inputCommand : String
deriving DecidableEq, Repr

/-- The empty dict used when the pending queue is empty
(`tool_info = pending_tools.pop(0) if pending_tools else {}`):
every .get falls back to its default. -/
def ToolInfo.empty : ToolInfo := ⟨"", "", ""⟩

/-- The "file" sub-dict of a read result: `{"filePath": ..., "content": ...}`
with "" defaults. -/
structure FileField where
  filePath : String
  content : String
deriving DecidableEq, Repr

/-- A tool_use_result dict as inspected by `process_tool_result`.  Each field
models the presence (and value) of the corresponding key; `otherKeys` records
whether the dict holds any further keys, so that Python dict truthiness
(non-emptiness) is representable. -/
structure TRDict where
  structuredPatch : Option (List PyVal)
  filePath : Option String
  file : Option FileField
  stdoutVal : Option String
  stderrVal : Option String
  exitCode : Option Int
  content : Option PyVal
  result : Option PyVal
  otherKeys : Bool
deriving DecidableEq, Repr

/-- Python truthiness of the dict: nonempty. -/
def TRDict.isTruthy (d : TRDict) : Bool :=
  d.structuredPatch.isSome || d.filePath.isSome || d.file.isSome ||
  d.stdoutVal.isSome || d.stderrVal.isSome || d.exitCode.isSome ||
  d.content.isSome || d.result.isSome || d.otherKeys

/-- The tool_use_result value attached to a "user" stream line: a string,
a dict, or any other JSON value (list, number, ...). -/
inductive ToolResultVal where
  | tstr (s : String)
  | tdict (d : TRDict)
  | tother (truthy : Bool)
deriving DecidableEq, Repr

/-- Python truthiness of a tool_use_result value. -/
def ToolResultVal.isTruthy : ToolResultVal → Bool
  | .tstr s => s ≠ ""
  | .tdict d => d.isTruthy
  | .tother t => t

/-- Embedding of `process_tool_result` (src/app/shared.py lines 510-537).
Parses a CLI tool_use_result into an event; returns none if unparseable.
The nested `json.loads(text)` call of the fallback branch is abstracted by
the parameter `jloadsDict`, which returns the parsed object's entries when
the string parses to a JSON dict and none otherwise (parse failure or a
non-dict parse, which the code treats identically). -/
def process_tool_result (jloadsDict : String → Option (List (String × PyVal)))
    (tool_result : ToolResultVal) (tool_info : ToolInfo) : Option Event :=
  let tool_id := tool_info.id
  match tool_result with
  | .tstr s => some (.tool_output tool_id s)
  | .tother _ => none
  | .tdict d =>
    match d.structuredPatch with
    | some patch =>
      if tool_info.name = "Write" then
        some (.tool_output tool_id "File created")
      else
        some (.edit_result tool_id (d.filePath.getD "") patch)
    | none =>
    match d.file with
    | some f => some (.read_result tool_id f.filePath (pyTake f.content 500))
    | none =>
    if d.stdoutVal.isSome || d.stderrVal.isSome then
      let cmd := if tool_info.name = "Bash" then tool_info.inputCommand else ""
      some (.bash_result tool_id cmd (d.stdoutVal.getD "") (d.stderrVal.getD "")
        (d.exitCode.getD 0))
    else
      let text := pyOrChain d.content d.result (.pstr "")
      let text :=
        match text with
        | .pstr s =>
          match jloadsDict s with
          | some fields =>
            pyOrChain (fields.lookup "result") (fields.lookup "content") (.pstr s)
          | none => PyVal.pstr s
        | v => v
      some (.tool_output tool_id text.render)

/-- Embedding of the "user" branch of `parse_cli_stream`
(src/app/shared.py lines 441-447): given the line's tool_use_result value
(none models an absent key), pop the oldest queued tool call when the result
is truthy and append the event produced by `process_tool_result`, if any. -/
def handle_user_line (jloadsDict : String → Option (List (String × PyVal)))
    (tool_use_result : Option ToolResultVal)
    (pending : List ToolInfo) (events : List Event) :
    List ToolInfo × List Event :=
  match tool_use_result with
  | none => (pending, events)
  | some tr =>
    if tr.isTruthy then
      let tool_info := pending.headD ToolInfo.empty
      let pending' := pending.tail
      match process_tool_result jloadsDict tr tool_info with
      | some evt => (pending', events ++ [evt])
      | none => (pending', events)
    else (pending, events)

/-! ### Context-usage percentage (src/app/shared.py lines 355-378) -/

/-- Round a rational to the nearest integer, ties to the even neighbour, as
Python's round does. -/
def roundHalfEven (x : ℚ) : ℤ :=
  let f := ⌊x⌋
  if x - f < 1 / 2 then f
  else if 1 / 2 < x - f then f + 1
  else if f % 2 = 0 then f else f + 1

/-- Python round(x, 1). -/
def pyRound1 (x : ℚ) : ℚ := (roundHalfEven (x * 10) : ℚ) / 10

/-- The usage dict of the last assistant message, with the token counts read
through .get(key, 0); absent keys are the value 0. -/
structure AssistantUsage where
  input_tokens : Nat
  cache_read_input_tokens : Nat
  cache_creation_input_tokens : Nat
deriving DecidableEq, Repr

/-- One value of the result line's "modelUsage" dict.  contextWindow is kept
optional because the code reads it through .get("contextWindow", 200000). -/
structure ModelUsage where
  contextWindow : Option Nat
  inputTokens : Nat
  outputTokens : Nat
  cacheReadInputTokens : Nat
  cacheCreationInputTokens : Nat
deriving DecidableEq, Repr

/-- The fields of the final "result" stream line that
`calc_context_percent` reads: the modelUsage values in dict order, and the
"_last_assistant_usage" entry (none models both an absent key and the falsy
empty dict, which the code treats identically). -/
structure ResultData where
  modelUsage : List ModelUsage
  lastAssistantUsage : Option AssistantUsage
deriving DecidableEq, Repr

/-- Embedding of `calc_context_percent` (src/app/shared.py lines 355-378):
context window from the first modelUsage entry (default 200000); percentage
from the last assistant message's input + cache-read + cache-creation tokens
when available, else from the first modelUsage entry's cumulative totals,
else 0. -/
def calc_context_percent (data : ResultData) : ℚ :=
  let context_window : ℚ :=
    match data.modelUsage.head? with
    | some m => (m.contextWindow.getD 200000 : ℚ)
    | none => 200000
  match data.lastAssistantUsage with
  | some u =>
    let total_input : ℚ := (u.input_tokens : ℚ) + (u.cache_read_input_tokens : ℚ) +
      (u.cache_creation_input_tokens : ℚ)
    pyRound1 (total_input / context_window * 100)
  | none =>
    match data.modelUsage.head? with
    | some m =>
      let total : ℚ := (m.inputTokens : ℚ) + (m.outputTokens : ℚ) +
        (m.cacheReadInputTokens : ℚ) + (m.cacheCreationInputTokens : ℚ)
      pyRound1 (total / context_window * 100)
    | none => 0

/-! ### MCP deny-list computation (src/app/shared.py lines 310-352) -/

/-- One discovered tool descriptor of an MCP server's cached "tools" list. -/
structure McpToolDesc where
  name : String
  description : String
deriving DecidableEq, Repr

/-- The per-server configuration data consulted by the deny-list computation
inside `build_mcp_flags`: the supported modes (the code reads them through
.get("modes", ["chat", "code", "paper"]); construction supplies the default
when the key is absent) and the discovered tools. -/
structure McpServerCfg where
  modes : List String
  tools : List McpToolDesc
deriving DecidableEq, Repr

/-- The qualified tool names collected by the single pass of
`build_mcp_flags`: for every server surviving the mode filter, every cached
tool contributes "mcp__" + serverName + "__" + toolName. -/
def all_mcp_tools (servers : List (String × McpServerCfg)) (mode : String) :
    List String :=
  (servers.filter (fun sv => !(mode ≠ "" && !(sv.2.modes.contains mode)))).flatMap
    (fun sv => sv.2.tools.map (fun t => "mcp__" ++ sv.1 ++ "__" ++ t.name))

/-- Embedding of the disallowed-tools computation of `build_mcp_flags`
(src/app/shared.py lines 336-346): no MCP tools means nothing to disable, an
empty enabled list disables every MCP tool, otherwise a qualified tool is
disabled when its name split at the first two "__" separators does not end
in an enabled tool name; AskUserQuestion is always appended. -/
def build_mcp_disallowed (servers : List (String × McpServerCfg))
    (enabled_tools : List String) (mode : String) : List String :=
  let allTools := all_mcp_tools servers mode
  let disabled :=
    if allTools = [] then []
    else if enabled_tools = [] then allTools
    else allTools.filter (fun t => !(enabled_tools.contains (pySplitLast t "__" 2)))
  disabled ++ ["AskUserQuestion"]

/-- The deny-list as the claim words it: all discovered qualified tool names
minus those whose unqualified name (the tool's own discovered name) is
caller-enabled, plus AskUserQuestion.  Stated from the claim for comparison
with `build_mcp_disallowed`. -/
def claimed_mcp_disallowed (servers : List (String × McpServerCfg))
    (enabled_tools : List String) (mode : String) : List String :=
  (servers.filter (fun sv => !(mode ≠ "" && !(sv.2.modes.contains mode)))).flatMap
    (fun sv => (sv.2.tools.filter (fun t => !(enabled_tools.contains t.name))).map
      (fun t => "mcp__" ++ sv.1 ++ "__" ++ t.name))
  ++ ["AskUserQuestion"]

/-! ### Generation orchestrator (src/app/shared.py lines 669-769)

The response's status field, and an outcome record capturing what one run of
`run_mode_generation` does to its response entry.  All call sites
(`mode_chat_handler`, `chat_handler`) leave `status_running` at its default
"running", so the running status is modelled by the `running` constructor. -/

/-- Status of a response. -/
inductive Status where
  | pending
  | running
  | completed
  | error
deriving DecidableEq, Repr

/-- Position of a status along the lifecycle order pending, running,
terminal. -/
def statusRank : Status → Nat
  | .pending => 0
  | .running => 1
  | .completed => 2
  | .error => 2

/-- Where an exception can be raised inside the try block of
`run_mode_generation`: in the first-message hook (before the cancellation
check), at subprocess launch (after status was set to running, before the
process existed), or after the launch (in stream parsing or the DB save). -/
inductive RaisePoint where
  | inFirstHook
  | inLaunch
  | afterLaunch
deriving DecidableEq, Repr

/-- The lock-acquisition timeout passed to `lock.acquire(timeout=120)`
(src/app/shared.py line 688). -/
def lockAcquireTimeoutSeconds : Nat := 120

/-- The error reason stored when the session lock is not obtained
(src/app/shared.py line 690). -/
def sessionBusyReason : String := "Previous response is still processing."

/-- What one run of `run_mode_generation` did to its response entry. -/
structure GenOutcome where
  statusWrites : List Status
  events : List Event
  spawned : Bool
  errorMsg : Option String
deriving DecidableEq, Repr

/-- Embedding of the control flow of `run_mode_generation`
(src/app/shared.py lines 685-769) acting on a response whose entry was just
initialised by its handler (status pending, empty event log).

Inputs abstract the run's environment: `acquire t` is the outcome of
`lock.acquire(timeout=t)`; `is_first_message` gates the first-message hook;
`cancelledAtCheck` is the value of the response's cancelled flag when the
orchestrator reads it after taking the lock; `raiseAt` marks the single point
of the try block at which an exception (with message `excMsg`) is raised, if
any; `parseEvents` / `eventsAtRaise` are the events the stream parser and the
result hook appended by subprocess exit / by the time of the exception.

The outcome records the sequence of writes to the response's status field,
the final event log, whether the CLI subprocess was spawned, and the stored
error reason.  The DB persistence call and the guaranteed lock release of the
finally block are not part of the record. -/
def run_mode_generation (acquire : Nat → Bool) (is_first_message : Bool)
    (cancelledAtCheck : Bool) (raiseAt : Option RaisePoint) (excMsg : String)
    (parseEvents eventsAtRaise : List Event) : GenOutcome :=
  if !acquire lockAcquireTimeoutSeconds then
    { statusWrites := [.error], events := [], spawned := false,
      errorMsg := some sessionBusyReason }
  else if is_first_message && raiseAt = some .inFirstHook then
    { statusWrites := [.error], events := [], spawned := false,
      errorMsg := some excMsg }
  else if cancelledAtCheck then
    { statusWrites := [.completed], events := [], spawned := false,
      errorMsg := none }
  else if raiseAt = some .inLaunch then
    { statusWrites := [.running, .error], events := [], spawned := false,
      errorMsg := some excMsg }
  else if raiseAt = some .afterLaunch then
    { statusWrites := [.running, .error], events := eventsAtRaise,
      spawned := true, errorMsg := some excMsg }
  else
    { statusWrites := [.running, .completed], events := parseEvents,
      spawned := true, errorMsg := none }

/-- The full trajectory of the response's status field: the handler writes
pending at creation (src/app/shared.py line 1258), then the generation task
takes over. -/
def responseStatusTrace (acquire : Nat → Bool) (is_first_message : Bool)
    (cancelledAtCheck : Bool) (raiseAt : Option RaisePoint) (excMsg : String)
    (parseEvents eventsAtRaise : List Event) : List Status :=
  Status.pending :: (run_mode_generation acquire is_first_message
    cancelledAtCheck raiseAt excMsg parseEvents eventsAtRaise).statusWrites

/-! ### SSE JSON-RPC response correlation (src/app/shared.py lines 37-54) -/

/-- A parsed JSON-RPC response line: its id entry (absent for notifications)
and the raw payload. -/
structure JsonRpcMsg where
  id : Option Int
  raw : String
deriving DecidableEq, Repr

/-- Embedding of the loop body of `_read_sse_response`: `i` is the
enumeration index of the current line; the loop breaks once i exceeds
timeout_lines, skips empty lines, "event: ... message" lines, non-data lines
and data lines that fail to parse or whose id differs from the target.
`jloads` abstracts `json.loads` restricted to dict results (the code would
fault on a non-dict parse before comparing ids).  The fuel argument makes the
recursion structural; `timeout_lines + 2 - i` steps always suffice because
the index check stops the loop at i = timeout_lines + 1. -/
def readSseGo (jloads : String → Option JsonRpcMsg) (target_id : Int)
    (lines : Nat → String) (timeout_lines : Nat) : Nat → Nat → Option JsonRpcMsg
  | 0, _ => none
  | fuel + 1, i =>
    if i > timeout_lines then none
    else
      let line := lines i
      if line = "" then readSseGo jloads target_id lines timeout_lines fuel (i + 1)
      else if pyStartsWith line "event:" && pyContainsSub line "message" then
        readSseGo jloads target_id lines timeout_lines fuel (i + 1)
      else if pyStartsWith line "data:" then
        match jloads (pyStrip (pyDrop line 5)) with
        | some data =>
          if data.id = some target_id then some data
          else readSseGo jloads target_id lines timeout_lines fuel (i + 1)
        | none => readSseGo jloads target_id lines timeout_lines fuel (i + 1)
      else readSseGo jloads target_id lines timeout_lines fuel (i + 1)

/-- Embedding of `_read_sse_response` (src/app/shared.py lines 37-54) over an
unbounded stream of lines, with the default timeout_lines = 200. -/
def read_sse_response (jloads : String → Option JsonRpcMsg) (target_id : Int)
    (lines : Nat → String) (timeout_lines : Nat := 200) : Option JsonRpcMsg :=
  readSseGo jloads target_id lines timeout_lines (timeout_lines + 2) 0

/-! ### SSE streaming multiplexer (src/app/shared.py lines 772-825)

The generator's per-round event flush is modelled over snapshots of the
response's event log: one round sees one snapshot (the log as it stood on
that scheduling turn), sends every buffered event from the cursor on, and
advances the cursor to the snapshot's length.  Log entries carry their type
string and an opaque payload. -/

/-- The event types forwarded over SSE (src/app/shared.py line 34). -/
def SSE_EVENT_TYPES : List String :=
  ["init", "tool_use", "edit_result", "read_result", "bash_result",
   "tool_output", "text", "result"]

/-- One SSE message flushed to a subscriber: the event name, the merged-in
_idx field, and the event's payload. -/
structure SseOut (α : Type) where
  event : String
  idx : Nat
  data : α
deriving DecidableEq, Repr

/-- Embedding of the inner while loop of `mode_stream_sse` (lines 805-812):
starting at cursor c, walk the buffered event list to its end, yielding every
event whose type is an SSE event type together with an _idx field equal to
its position in the log. -/
def sendEventsLoop (events : List (String × α)) (c : Nat) : List (SseOut α) :=
  if h : c < events.length then
    (match events.get ⟨c, h⟩ with
     | (t, d) => if t ∈ SSE_EVENT_TYPES then [SseOut.mk t c d] else []) ++
    sendEventsLoop events (c + 1)
  else []
termination_by events.length - c

/-- Reference form of the flush: events of the list labelled with indices
from n on, filtered to the SSE event types. -/
def specEmitFrom (n : Nat) : List (String × α) → List (SseOut α)
  | [] => []
  | (t, d) :: rest =>
    (if t ∈ SSE_EVENT_TYPES then [SseOut.mk t n d] else []) ++
    specEmitFrom (n + 1) rest

/-- The multiplexer loop across scheduling turns: each turn flushes the
current snapshot of the event log from the cursor and advances the cursor to
the snapshot's length (the while loop leaves the cursor there; a shorter
snapshot leaves it unchanged). -/
def streamRounds : List (List (String × α)) → Nat → List (SseOut α)
  | [], _ => []
  | s :: rest, c => sendEventsLoop s c ++ streamRounds rest (max c s.length)

/-- Everything a subscriber created with cursor start_from receives from the
event log over a sequence of log snapshots, with the cursor initialised to
max(0, start_from) as in `mode_stream_sse` line 788. -/
def mode_stream_events (snapshots : List (List (String × α)))
    (start_from : Int) : List (SseOut α) :=
  streamRounds snapshots (max 0 start_from).toNat

/-! ### Terminal bridge (src/app/terminal_routes.py) -/

/-- Maximum concurrent terminal sessions (line 24). -/
def MAX_TERMINALS : Nat := 3

/-- Idle timeout in seconds (line 26). -/
def IDLE_TIMEOUT : ℚ := 600

/-- One registered terminal session: child pid, master pty descriptor and
last-activity timestamp.  pid and fd are kept optional because the cleanup
code reads them through .get and tests them for truthiness (a pid or fd of 0
is falsy). -/
structure TermSession where
  pid : Option Nat
  fd : Option Nat
  last_activity : ℚ
deriving DecidableEq, Repr

/-- The session table, keyed by session id in insertion order. -/
abbrev TermTable : Type := List (String × TermSession)

/-- Python optional-int truthiness: present and nonzero. -/
def optNatTruthy : Option Nat → Bool
  | some n => n ≠ 0
  | none => false

/-- An OS-level effect of closing a session, in program order. -/
inductive SysAction where
  | sigterm (pid : Nat)
  | waitpid (pid : Nat)
  | closeFd (fd : Nat)
deriving DecidableEq, Repr

/-- Embedding of `_close_session` (src/app/terminal_routes.py lines 40-59):
pop the session (a no-op when absent), send SIGTERM to the child and reap it
non-blockingly (the waitpid is skipped when os.kill raises, which the code
swallows; `killRaises` models that), then close the descriptor.  Returns the
new table and the OS actions in order. -/
def close_session (killRaises : Bool) (tbl : TermTable) (session_id : String) :
    TermTable × List SysAction :=
  match tbl.lookup session_id with
  | none => (tbl, [])
  | some s =>
    let tbl' := tbl.filter (fun e => e.1 ≠ session_id)
    let killActs :=
      match s.pid with
      | some p =>
        if p ≠ 0 then
          SysAction.sigterm p :: (if killRaises then [] else [SysAction.waitpid p])
        else []
      | none => []
    let closeActs :=
      match s.fd with
      | some f => if f ≠ 0 then [SysAction.closeFd f] else []
      | none => []
    (tbl', killActs ++ closeActs)

/-- Embedding of `_cleanup_idle_sessions` (lines 29-37): collect the ids
whose last activity is more than IDLE_TIMEOUT seconds old, then close each
of them. -/
def cleanup_idle_sessions (killRaises : Bool) (tbl : TermTable) (now : ℚ) :
    TermTable × List SysAction :=
  let to_remove := (tbl.filter (fun e => now - e.2.last_activity > IDLE_TIMEOUT)).map
    (fun e => e.1)
  to_remove.foldl
    (fun acc sid =>
      let r := close_session killRaises acc.1 sid
      (r.1, acc.2 ++ r.2))
    (tbl, [])

/-- Result of a terminal WebSocket connection attempt. -/
inductive ConnectResult where
  | rejected (closeCode : Nat)
  | accepted (session_id : String)
deriving DecidableEq, Repr

/-- Embedding of the connection prologue of `websocket_terminal`
(lines 79-110): reap idle sessions first, reject with close code 1008 when
the table is at capacity, otherwise fork a pty-backed shell (pid and fd
supplied by the environment) and register the new session with the current
time as its activity stamp. -/
def websocket_terminal_connect (killRaises : Bool) (tbl : TermTable) (now : ℚ)
    (newSid : String) (newPid newFd : Nat) : TermTable × ConnectResult :=
  let cleaned := (cleanup_idle_sessions killRaises tbl now).1
  if cleaned.length ≥ MAX_TERMINALS then
    (cleaned, .rejected 1008)
  else
    (cleaned ++ [(newSid, ⟨some newPid, some newFd, now⟩)], .accepted newSid)

/-! ## Theorems -/

/-- Claim C1: if the cancelled flag is already set when the orchestrator
checks it after acquiring the session lock (so the lock was obtained and no
exception preempted the check), `run_mode_generation` finalizes the response
as completed, leaves its event log empty, and never spawns the CLI
subprocess. -/
theorem C1_cancel_before_launch (acquire : Nat → Bool) (is_first_message : Bool)
    (raiseAt : Option RaisePoint) (excMsg : String)
    (parseEvents eventsAtRaise : List Event)
    (hacq : acquire lockAcquireTimeoutSeconds = true)
    (hreach : ¬(is_first_message = true ∧ raiseAt = some RaisePoint.inFirstHook)) :
    (run_mode_generation acquire is_first_message true raiseAt excMsg
        parseEvents eventsAtRaise).statusWrites = [Status.completed] ∧
    (run_mode_generation acquire is_first_message true raiseAt excMsg
        parseEvents eventsAtRaise).events = [] ∧
    (run_mode_generation acquire is_first_message true raiseAt excMsg
        parseEvents eventsAtRaise).spawned = false := by
  have h2 : (is_first_message && decide (raiseAt = some RaisePoint.inFirstHook)) = false := by
    cases is_first_message with
    | false => simp
    | true =>
      simp only [Bool.true_and, decide_eq_false_iff_not]
      intro h
      exact hreach ⟨rfl, h⟩
  simp [run_mode_generation, hacq, h2]

/-- Witness for C1 at a concrete input. -/
theorem C1_cancel_before_launch_witness :
    (run_mode_generation (fun _ => true) false true none "boom" [] []).statusWrites
        = [Status.completed] ∧
    (run_mode_generation (fun _ => true) false true none "boom" [] []).events = [] ∧
    (run_mode_generation (fun _ => true) false true none "boom" [] []).spawned = false :=
  C1_cancel_before_launch (fun _ => true) false none "boom" [] [] rfl (by simp)

/-- Claim C2: session-lock acquisition is attempted with the bounded
120-second timeout; if it fails, the response is marked error with the
distinct session-busy reason, no subprocess is launched, and the request is
not silently dropped (a terminal status is always written). -/
theorem C2_lock_timeout (acquire : Nat → Bool) (is_first_message cancelled : Bool)
    (raiseAt : Option RaisePoint) (excMsg : String)
    (parseEvents eventsAtRaise : List Event)
    (hacq : acquire lockAcquireTimeoutSeconds = false) :
    lockAcquireTimeoutSeconds = 120 ∧
    run_mode_generation acquire is_first_message cancelled raiseAt excMsg
        parseEvents eventsAtRaise =
      { statusWrites := [Status.error], events := [], spawned := false,
        errorMsg := some sessionBusyReason } ∧
    sessionBusyReason = "Previous response is still processing." := by
  refine ⟨rfl, ?_, rfl⟩
  simp [run_mode_generation, hacq]

/-- Witness for C2 at a concrete input. -/
theorem C2_lock_timeout_witness :
    lockAcquireTimeoutSeconds = 120 ∧
    run_mode_generation (fun _ => false) false false none "boom" [] [] =
      { statusWrites := [Status.error], events := [], spawned := false,
        errorMsg := some sessionBusyReason } ∧
    sessionBusyReason = "Previous response is still processing." :=
  C2_lock_timeout (fun _ => false) false false none "boom" [] [] rfl

/-- Claim C6: along every execution path of `run_mode_generation` (lock
timeout, pre-launch cancellation, normal completion, mid-run cancellation,
exception at any raise point), the response's status trajectory advances
strictly along pending, running, terminal and never regresses. -/
theorem C6_status_monotone :
    ∀ (acquire : Nat → Bool) (is_first_message cancelledAtCheck : Bool)
      (raiseAt : Option RaisePoint) (excMsg : String)
      (parseEvents eventsAtRaise : List Event),
      List.Chain' (fun a b => statusRank a < statusRank b)
        (responseStatusTrace acquire is_first_message cancelledAtCheck raiseAt
          excMsg parseEvents eventsAtRaise) := by
  intro acquire is_first_message cancelledAtCheck raiseAt excMsg parseEvents eventsAtRaise
  unfold responseStatusTrace run_mode_generation
  cases hacq : acquire lockAcquireTimeoutSeconds <;>
    cases is_first_message <;>
    cases cancelledAtCheck <;>
    rcases raiseAt with _ | p <;>
    try cases p
  all_goals simp [List.Chain', statusRank]

/-- Claim C4: `calc_context_percent` returns round(usedTokens /
contextWindowSize * 100, 1) where usedTokens sums the last assistant turn's
input, cache-read and cache-creation tokens when that usage exists, falls
back to the cumulative model-usage total otherwise, and returns 0 when no
usage data exists anywhere; on the spec's example (100 + 50 + 0 tokens over
a 200000 window) it returns 0.1. -/
theorem C4_context_percent :
    (∀ (mu : ModelUsage) (rest : List ModelUsage) (u : AssistantUsage),
      calc_context_percent ⟨mu :: rest, some u⟩ =
        pyRound1 (((u.input_tokens : ℚ) + (u.cache_read_input_tokens : ℚ) +
          (u.cache_creation_input_tokens : ℚ)) /
          (mu.contextWindow.getD 200000 : ℚ) * 100)) ∧
    (∀ (u : AssistantUsage),
      calc_context_percent ⟨[], some u⟩ =
        pyRound1 (((u.input_tokens : ℚ) + (u.cache_read_input_tokens : ℚ) +
          (u.cache_creation_input_tokens : ℚ)) / 200000 * 100)) ∧
    (∀ (mu : ModelUsage) (rest : List ModelUsage),
      calc_context_percent ⟨mu :: rest, none⟩ =
        pyRound1 (((mu.inputTokens : ℚ) + (mu.outputTokens : ℚ) +
          (mu.cacheReadInputTokens : ℚ) + (mu.cacheCreationInputTokens : ℚ)) /
          (mu.contextWindow.getD 200000 : ℚ) * 100)) ∧
    calc_context_percent ⟨[], none⟩ = 0 ∧
    calc_context_percent ⟨[⟨some 200000, 0, 0, 0, 0⟩], some ⟨100, 50, 0⟩⟩ = 1 / 10 := by
  refine ⟨?_, ?_, ?_, ?_, ?_⟩
  · intro mu rest u
    simp [calc_context_percent]
  · intro u
    simp [calc_context_percent]
  · intro mu rest
    simp [calc_context_percent]
  · simp [calc_context_percent]
  · norm_num [calc_context_percent, pyRound1, roundHalfEven]

/-- The first split of a qualified tool name always severs the leading
"mcp". -/
theorem splitOnce_mcp_head (rest : List Char) :
    splitOnce ['_', '_'] ('m' :: 'c' :: 'p' :: '_' :: '_' :: rest) =
      some (['m', 'c', 'p'], rest) := by
  simp [splitOnce, List.isPrefixOf]

theorem splitOnce_boundary (t : List Char) :
    ∀ (s : List Char), ¬ ['_', '_'] <:+: s → s.getLast? ≠ some '_' →
      splitOnce ['_', '_'] (s ++ '_' :: '_' :: t) = some (s, t) := by
  intro s
  induction s with
  | nil => intro _ _; simp [splitOnce, List.isPrefixOf]
  | cons c s' ih =>
    intro hinf hlast
    show splitOnce ['_', '_'] (c :: (s' ++ '_' :: '_' :: t)) = some (c :: s', t)
    have hpre : List.isPrefixOf ['_', '_'] (c :: (s' ++ '_' :: '_' :: t)) = false := by
      by_cases hc : c = '_'
      · subst hc
        cases s' with
        | nil => exact absurd rfl hlast
        | cons c' s'' =>
          by_cases hc' : c' = '_'
          · subst hc'
            exact absurd ⟨[], s'', rfl⟩ hinf
          · simp [List.isPrefixOf]
            intro h
            exact absurd h.symm hc'
      · simp [List.isPrefixOf]
        intro h
        exact absurd h.symm hc
    have hinf' : ¬ ['_', '_'] <:+: s' := fun h => hinf (List.infix_cons_iff.mpr (Or.inr h))
    have hlast' : s'.getLast? ≠ some '_' := by
      cases s' with
      | nil => simp
      | cons c' s'' => simpa [List.getLast?_cons_cons] using hlast
    simp [splitOnce, hpre, ih hinf' hlast']

theorem pySplitLast_qualified (s t : String)
    (h1 : ¬ ['_', '_'] <:+: s.data) (h2 : s.data.getLast? ≠ some '_') :
    pySplitLast ("mcp__" ++ s ++ "__" ++ t) "__" 2 = t := by
  have hdata : ("mcp__" ++ s ++ "__" ++ t).data =
      'm' :: 'c' :: 'p' :: '_' :: '_' :: (s.data ++ '_' :: '_' :: t.data) := by
    simp [String.data_append]
  simp [pySplitLast, pySplit, hdata, pySplitChars, splitOnce_mcp_head,
    splitOnce_boundary t.data s.data h1 h2]

theorem filter_of_flatMap {α β : Type} (l : List α) (g : α → List β) (p : β → Bool) :
    (l.flatMap g).filter p = l.flatMap (fun x => (g x).filter p) := by
  induction l with
  | nil => rfl
  | cons a l ih => simp [List.flatMap_cons, List.filter_append, ih]

theorem build_mcp_disallowed_eq_filter (servers : List (String × McpServerCfg))
    (enabled_tools : List String) (mode : String) :
    build_mcp_disallowed servers enabled_tools mode =
      (all_mcp_tools servers mode).filter
        (fun t => !(enabled_tools.contains (pySplitLast t "__" 2))) ++
      ["AskUserQuestion"] := by
  unfold build_mcp_disallowed
  by_cases h1 : all_mcp_tools servers mode = []
  · simp [h1]
  · by_cases h2 : enabled_tools = []
    · subst h2
      simp [h1]
    · simp [h1, h2]

theorem build_vs_claimed (servers : List (String × McpServerCfg))
    (enabled_tools : List String) (mode : String)
    (hwf : ∀ sv ∈ servers, ¬ (['_', '_'] <:+: sv.1.data) ∧
      sv.1.data.getLast? ≠ some '_') :
    build_mcp_disallowed servers enabled_tools mode =
      claimed_mcp_disallowed servers enabled_tools mode := by
  rw [build_mcp_disallowed_eq_filter]
  unfold claimed_mcp_disallowed all_mcp_tools
  rw [filter_of_flatMap]
  congr 1
  have key : ∀ l : List (String × McpServerCfg),
      (∀ sv ∈ l, ¬ (['_', '_'] <:+: sv.1.data) ∧ sv.1.data.getLast? ≠ some '_') →
      l.flatMap (fun sv =>
        (sv.2.tools.map (fun t => "mcp__" ++ sv.1 ++ "__" ++ t.name)).filter
          (fun t => !(enabled_tools.contains (pySplitLast t "__" 2)))) =
      l.flatMap (fun sv =>
        (sv.2.tools.filter (fun t => !(enabled_tools.contains t.name))).map
          (fun t => "mcp__" ++ sv.1 ++ "__" ++ t.name)) := by
    intro l
    induction l with
    | nil => intro _; rfl
    | cons sv l ih =>
      intro hl
      have hsv := hl sv (List.mem_cons_self sv l)
      simp only [List.flatMap_cons]
      rw [ih (fun x hx => hl x (List.mem_cons_of_mem sv hx))]
      congr 1
      rw [List.filter_map]
      congr 1
      apply List.filter_congr
      intro t ht
      simp [Function.comp, pySplitLast_qualified sv.1 t.name hsv.1 hsv.2]
  exact key (servers.filter _) (fun sv h => hwf sv (List.mem_of_mem_filter h))

/-- Claim C3 (amended): the deny-list equals all discovered qualified tool
names minus those whose suffix after the first two double-underscore
separators is caller-enabled, always plus AskUserQuestion; that suffix is
the tool's own (unqualified) name whenever every server name contains no
double underscore and does not end in an underscore, in which case the
computation agrees with the claim's set difference; the spec's concrete
example holds. -/
theorem C3_denylist :
    (∀ (servers : List (String × McpServerCfg)) (enabled_tools : List String)
        (mode : String),
      build_mcp_disallowed servers enabled_tools mode =
        (all_mcp_tools servers mode).filter
          (fun t => !(enabled_tools.contains (pySplitLast t "__" 2))) ++
        ["AskUserQuestion"]) ∧
    (∀ (servers : List (String × McpServerCfg)) (enabled_tools : List String)
        (mode : String),
      (∀ sv ∈ servers, ¬ (['_', '_'] <:+: sv.1.data) ∧
        sv.1.data.getLast? ≠ some '_') →
      build_mcp_disallowed servers enabled_tools mode =
        claimed_mcp_disallowed servers enabled_tools mode) ∧
    build_mcp_disallowed
        [("srv", ⟨["chat", "code", "paper"], [⟨"search", ""⟩, ⟨"fetch", ""⟩]⟩)]
        ["search"] "" =
      ["mcp__srv__fetch", "AskUserQuestion"] :=
  ⟨build_mcp_disallowed_eq_filter, build_vs_claimed, by decide⟩

/-- Counterexample to claim C3 as stated: with a server legitimately named
"a__b" (the name regex allows consecutive underscores) exposing a tool
"search", and "search" caller-enabled, the code still denies
mcp__a__b__search — its unqualified name is enabled, so the claimed set
difference would not deny it — because the split-based suffix is
"b__search". -/
theorem C3_counterexample :
    build_mcp_disallowed [("a__b", ⟨["chat", "code", "paper"], [⟨"search", ""⟩]⟩)]
        ["search"] "" = ["mcp__a__b__search", "AskUserQuestion"] ∧
    claimed_mcp_disallowed [("a__b", ⟨["chat", "code", "paper"], [⟨"search", ""⟩]⟩)]
        ["search"] "" = ["AskUserQuestion"] ∧
    pySplitLast "mcp__a__b__search" "__" 2 = "b__search" := by
  refine ⟨by decide, by decide, by decide⟩

/-- Witness for C3 at a concrete input with a well-formed server name. -/
theorem C3_denylist_witness :
    build_mcp_disallowed [("srv", ⟨["chat", "code", "paper"], [⟨"search", ""⟩]⟩)]
        ["other"] "" =
      claimed_mcp_disallowed [("srv", ⟨["chat", "code", "paper"], [⟨"search", ""⟩]⟩)]
        ["other"] "" :=
  C3_denylist.2.1
    [("srv", ⟨["chat", "code", "paper"], [⟨"search", ""⟩]⟩)] ["other"] ""
    (by decide)

/-- Claim C5 (amended): a truthy tool_use_result on a user line pops the
oldest queued tool call and appends the event `process_tool_result`
produces, if any (exactly one event, or none); a Python-falsy result (empty
string or empty dict) is skipped without popping.  Classification: plain
strings yield tool_output; a patch-structured result yields edit_result
unless the popped tool is Write, in which case tool_output "File created";
file content yields read_result; stdout/stderr yields bash_result; any
other dict yields tool_output; a non-string non-dict result yields no
event. -/
theorem C5_classification :
    (∀ (jl : String → Option (List (String × PyVal))) (tr : ToolResultVal)
        (pending : List ToolInfo) (events : List Event),
      tr.isTruthy = true →
      handle_user_line jl (some tr) pending events =
        (pending.tail, events ++
          (process_tool_result jl tr (pending.headD ToolInfo.empty)).toList)) ∧
    (∀ (jl : String → Option (List (String × PyVal))) (tr : ToolResultVal)
        (pending : List ToolInfo) (events : List Event),
      tr.isTruthy = false →
      handle_user_line jl (some tr) pending events = (pending, events)) ∧
    (∀ jl (s : String) (info : ToolInfo),
      process_tool_result jl (.tstr s) info = some (.tool_output info.id s)) ∧
    (∀ jl (d : TRDict) (patch : List PyVal) (info : ToolInfo),
      d.structuredPatch = some patch → info.name ≠ "Write" →
      process_tool_result jl (.tdict d) info =
        some (.edit_result info.id (d.filePath.getD "") patch)) ∧
    (∀ jl (d : TRDict) (patch : List PyVal) (info : ToolInfo),
      d.structuredPatch = some patch → info.name = "Write" →
      process_tool_result jl (.tdict d) info =
        some (.tool_output info.id "File created")) ∧
    (∀ jl (d : TRDict) (f : FileField) (info : ToolInfo),
      d.structuredPatch = none → d.file = some f →
      process_tool_result jl (.tdict d) info =
        some (.read_result info.id f.filePath (pyTake f.content 500))) ∧
    (∀ jl (d : TRDict) (info : ToolInfo),
      d.structuredPatch = none → d.file = none →
      (d.stdoutVal.isSome || d.stderrVal.isSome) = true →
      process_tool_result jl (.tdict d) info =
        some (.bash_result info.id
          (if info.name = "Bash" then info.inputCommand else "")
          (d.stdoutVal.getD "") (d.stderrVal.getD "") (d.exitCode.getD 0))) ∧
    (∀ jl (d : TRDict) (info : ToolInfo),
      d.structuredPatch = none → d.file = none →
      d.stdoutVal = none → d.stderrVal = none →
      ∃ out, process_tool_result jl (.tdict d) info =
        some (.tool_output info.id out)) ∧
    (∀ jl (truthy : Bool) (info : ToolInfo),
      process_tool_result jl (.tother truthy) info = none) := by
  refine ⟨?_, ?_, ?_, ?_, ?_, ?_, ?_, ?_, ?_⟩
  · intro jl tr pending events htr
    simp only [handle_user_line, htr, if_true]
    cases hres : process_tool_result jl tr (pending.headD ToolInfo.empty) <;>
      simp [hres]
  · intro jl tr pending events htr
    simp [handle_user_line, htr]
  · intro jl s info
    rfl
  · intro jl d patch info hp hw
    simp [process_tool_result, hp, hw]
  · intro jl d patch info hp hw
    simp [process_tool_result, hp, hw]
  · intro jl d f info hp hf
    simp [process_tool_result, hp, hf]
  · intro jl d info hp hf hs
    simp [process_tool_result, hp, hf, hs]
  · intro jl d info hp hf hso hse
    refine ⟨(match pyOrChain d.content d.result (PyVal.pstr "") with
      | PyVal.pstr s =>
        (match jl s with
         | some fields => pyOrChain (List.lookup "result" fields)
             (List.lookup "content" fields) (PyVal.pstr s)
         | none => PyVal.pstr s)
      | v => v).render, ?_⟩
    simp only [process_tool_result, hp, hf, hso, hse, Option.isSome_none,
      Bool.or_self, Bool.false_eq_true, if_false]
  · intro jl truthy info
    rfl

/-- Counterexample to claim C5 as stated: a patch-structured tool result
whose popped tool call is a Write does not yield an edit_result event — the
code special-cases Write and emits a tool_output event instead. -/
theorem C5_counterexample :
    process_tool_result (fun _ => none)
      (.tdict ⟨some [PyVal.pstr "@@ -1 +1 @@"], some "f.py", none, none, none,
        none, none, none, false⟩)
      ⟨"t1", "Write", ""⟩ = some (.tool_output "t1" "File created") := by
  decide

/-- Witness for C5 at a concrete input: a plain string result pops the
queued call and yields one tool_output event. -/
theorem C5_classification_witness :
    handle_user_line (fun _ => none) (some (.tstr "ok"))
      [⟨"t1", "Read", ""⟩] [] = ([], [Event.tool_output "t1" "ok"]) := by
  have h := C5_classification.1 (fun _ => none) (.tstr "ok")
    [⟨"t1", "Read", ""⟩] [] (by decide)
  rw [h]
  decide

/-- Claim C10: a tool result classified as file content yields a
read_result event whose content field is the file content truncated to its
first 500 characters — a prefix of the original of length at most 500 — so
subscribers never receive the full text of longer files; on a 600-character
file exactly the first 500 characters survive. -/
theorem C10_read_truncation :
    (∀ (jl : String → Option (List (String × PyVal))) (d : TRDict)
        (f : FileField) (info : ToolInfo),
      d.structuredPatch = none → d.file = some f →
      process_tool_result jl (.tdict d) info =
        some (.read_result info.id f.filePath (pyTake f.content 500))) ∧
    (∀ s : String, (pyTake s 500).data.length ≤ 500) ∧
    (∀ s : String, (pyTake s 500).data <+: s.data) ∧
    pyTake ⟨List.replicate 600 'a'⟩ 500 = ⟨List.replicate 500 'a'⟩ := by
  refine ⟨?_, ?_, ?_, ?_⟩
  · intro jl d f info hp hf
    simp [process_tool_result, hp, hf]
  · intro s
    simp only [pyTake]
    exact List.length_take_le 500 s.data
  · intro s
    exact ⟨s.data.drop 500, List.take_append_drop 500 s.data⟩
  · show (⟨List.take 500 (List.replicate 600 'a')⟩ : String) = ⟨List.replicate 500 'a'⟩
    rw [List.take_replicate]
    norm_num

/-- Witness for C10 at a concrete input. -/
theorem C10_read_truncation_witness :
    process_tool_result (fun _ => none)
      (.tdict ⟨none, none, some ⟨"a.txt", "hello"⟩, none, none, none, none,
        none, false⟩)
      ⟨"t9", "Read", ""⟩ =
      some (.read_result "t9" "a.txt" (pyTake "hello" 500)) :=
  C10_read_truncation.1 (fun _ => none)
    ⟨none, none, some ⟨"a.txt", "hello"⟩, none, none, none, none, none, false⟩
    ⟨"a.txt", "hello"⟩ ⟨"t9", "Read", ""⟩ rfl rfl

/-- The scan result only depends on the lines at indices up to
timeout_lines: both streams are consulted in lockstep and never beyond the
index bound. -/
theorem readSseGo_congr (jloads : String → Option JsonRpcMsg) (target_id : Int)
    (lines lines' : Nat → String) (timeout_lines : Nat)
    (h : ∀ j, j ≤ timeout_lines → lines j = lines' j) :
    ∀ (fuel i : Nat),
      readSseGo jloads target_id lines timeout_lines fuel i =
        readSseGo jloads target_id lines' timeout_lines fuel i := by
  intro fuel
  induction fuel with
  | zero => intro i; rfl
  | succ fuel ih =>
    intro i
    by_cases hi : i > timeout_lines
    · simp [readSseGo, hi]
    · have hline : lines i = lines' i := h i (Nat.le_of_not_lt hi)
      simp only [readSseGo, hi, if_false, hline, ih (i + 1)]

/-- Every returned message has the awaited id: all other lines are
discarded. -/
theorem readSseGo_id_match (jloads : String → Option JsonRpcMsg)
    (target_id : Int) (lines : Nat → String) (timeout_lines : Nat) :
    ∀ (fuel i : Nat) (msg : JsonRpcMsg),
      readSseGo jloads target_id lines timeout_lines fuel i = some msg →
      msg.id = some target_id := by
  intro fuel
  induction fuel with
  | zero => intro i msg h; exact absurd h (by simp [readSseGo])
  | succ fuel ih =>
    intro i msg h
    rw [readSseGo] at h
    by_cases hi : i > timeout_lines
    · rw [if_pos hi] at h
      exact absurd h (by simp)
    · rw [if_neg hi] at h
      by_cases h1 : lines i = ""
      · rw [if_pos h1] at h
        exact ih (i + 1) msg h
      · rw [if_neg h1] at h
        by_cases h2 : (pyStartsWith (lines i) "event:" &&
            pyContainsSub (lines i) "message") = true
        · rw [if_pos h2] at h
          exact ih (i + 1) msg h
        · rw [if_neg h2] at h
          by_cases h3 : pyStartsWith (lines i) "data:" = true
          · rw [if_pos h3] at h
            cases hj : jloads (pyStrip (pyDrop (lines i) 5)) with
            | none =>
              rw [hj] at h
              dsimp only at h
              exact ih (i + 1) msg h
            | some data =>
              rw [hj] at h
              dsimp only at h
              by_cases h4 : data.id = some target_id
              · rw [if_pos h4] at h
                cases h
                exact h4
              · rw [if_neg h4] at h
                exact ih (i + 1) msg h
          · rw [if_neg h3] at h
            exact ih (i + 1) msg h

/-- Claim C7 (amended): while awaiting a JSON-RPC response,
`_read_sse_response` discards every line whose id does not match the awaited
one (a returned message always carries the awaited id), and it examines only
the lines with zero-based index at most 200 — at most 201 lines — breaking
with no response once the index exceeds that bound, so the wait always
terminates. -/
theorem C7_scan_bound :
    (∀ (jloads : String → Option JsonRpcMsg) (target_id : Int)
        (lines lines' : Nat → String),
      (∀ j, j ≤ 200 → lines j = lines' j) →
      read_sse_response jloads target_id lines =
        read_sse_response jloads target_id lines') ∧
    (∀ (jloads : String → Option JsonRpcMsg) (target_id : Int)
        (lines : Nat → String) (msg : JsonRpcMsg),
      read_sse_response jloads target_id lines = some msg →
      msg.id = some target_id) := by
  constructor
  · intro jloads target_id lines lines' h
    exact readSseGo_congr jloads target_id lines lines' 200 h 202 0
  · intro jloads target_id lines msg h
    exact readSseGo_id_match jloads target_id lines 200 202 0 msg h

set_option maxRecDepth 4000 in
/-- Counterexample to claim C7 as stated: two streams that agree on their
first 200 lines (indices 0 to 199) produce different results, because the
201st line (index 200) is still examined — a matching line there is
returned.  The loop breaks only once the index exceeds 200. -/
theorem C7_counterexample :
    read_sse_response (fun s => if s = "match" then some ⟨some 1, "match"⟩ else none) 1
        (fun i => if i = 200 then "data: match" else "x") =
      some ⟨some 1, "match"⟩ ∧
    read_sse_response (fun s => if s = "match" then some ⟨some 1, "match"⟩ else none) 1
        (fun _ => "x") = none ∧
    (List.range 200).map (fun i => if i = 200 then "data: match" else "x") =
      (List.range 200).map (fun _ => "x") := by
  refine ⟨by decide, by decide, by decide⟩

/-- Witness for C7 at concrete inputs: two streams agreeing up to index 200
give equal results. -/
theorem C7_scan_bound_witness :
    read_sse_response (fun _ => none) 1 (fun _ => "x") =
      read_sse_response (fun _ => none) 1
        (fun i => if i ≤ 200 then "x" else "later") :=
  C7_scan_bound.1 (fun _ => none) 1 (fun _ => "x")
    (fun i => if i ≤ 200 then "x" else "later")
    (fun j hj => by simp [hj])

/-- The while-loop flush equals the reference flush of the remaining
events. -/
theorem sendEventsLoop_eq {α : Type} (events : List (String × α)) :
    ∀ c, sendEventsLoop events c = specEmitFrom c (events.drop c) := by
  have key : ∀ (n c : Nat), events.length - c ≤ n →
      sendEventsLoop events c = specEmitFrom c (events.drop c) := by
    intro n
    induction n with
    | zero =>
      intro c hc
      have h : ¬ c < events.length := by omega
      rw [sendEventsLoop]
      rw [dif_neg h]
      rw [List.drop_eq_nil_of_le (by omega)]
      rfl
    | succ n ih =>
      intro c hc
      by_cases h : c < events.length
      · rw [sendEventsLoop]
        rw [dif_pos h]
        rw [List.drop_eq_getElem_cons h]
        rw [ih (c + 1) (by omega)]
        rcases hx : events.get ⟨c, h⟩ with ⟨t, d⟩
        have hx' : events[c] = (t, d) := hx
        rw [hx']
        rfl
      · rw [sendEventsLoop]
        rw [dif_neg h]
        rw [List.drop_eq_nil_of_le (by omega)]
        rfl
  intro c
  exact key (events.length - c) c (Nat.le_refl _)

/-- The reference flush distributes over list append, shifting indices. -/
theorem specEmitFrom_append {α : Type} (a b : List (String × α)) :
    ∀ n, specEmitFrom n (a ++ b) = specEmitFrom n a ++ specEmitFrom (n + a.length) b := by
  induction a with
  | nil => intro n; simp [specEmitFrom]
  | cons x a ih =>
    intro n
    rcases x with ⟨t, d⟩
    rw [List.cons_append, specEmitFrom, specEmitFrom, ih (n + 1),
      List.append_assoc, List.length_cons]
    have h2 : n + 1 + a.length = n + (a.length + 1) := by omega
    rw [h2]

/-- Every flushed message carries an index at least the starting label. -/
theorem specEmitFrom_idx_lb {α : Type} :
    ∀ (s : List (String × α)) (n : Nat) (m : SseOut α),
      m ∈ specEmitFrom n s → n ≤ m.idx := by
  intro s
  induction s with
  | nil => intro n m h; exact absurd h (by simp [specEmitFrom])
  | cons x s ih =>
    intro n m h
    rcases x with ⟨t, d⟩
    rw [specEmitFrom] at h
    rcases List.mem_append.mp h with h1 | h2
    · by_cases ht : t ∈ SSE_EVENT_TYPES
      · rw [if_pos ht] at h1
        rcases List.mem_singleton.mp h1 with rfl
        exact Nat.le_refl _
      · rw [if_neg ht] at h1
        exact absurd h1 (List.not_mem_nil m)
    · exact Nat.le_of_succ_le (ih (n + 1) m h2)

/-- Filtering the reference flush to indices at least n + k is the same as
flushing from cursor n + k after dropping k events. -/
theorem specEmitFrom_filter_ge {α : Type} :
    ∀ (s : List (String × α)) (k n : Nat),
      (specEmitFrom n s).filter (fun m => n + k ≤ m.idx) =
        specEmitFrom (n + k) (s.drop k) := by
  intro s
  induction s with
  | nil => intro k n; simp [specEmitFrom]
  | cons x s ih =>
    intro k n
    rcases x with ⟨t, d⟩
    cases k with
    | zero =>
      rw [Nat.add_zero, List.drop_zero]
      apply List.filter_eq_self.mpr
      intro m hm
      simpa using specEmitFrom_idx_lb ((t, d) :: s) n m hm
    | succ k =>
      rw [specEmitFrom, List.filter_append]
      have hhead : (if t ∈ SSE_EVENT_TYPES then [SseOut.mk t n d] else []).filter
          (fun m => n + (k + 1) ≤ m.idx) = [] := by
        by_cases ht : t ∈ SSE_EVENT_TYPES
        · rw [if_pos ht]
          simp [List.filter]
        · rw [if_neg ht]
          rfl
      rw [hhead, List.nil_append]
      have harith : n + (k + 1) = (n + 1) + k := by omega
      rw [harith]
      rw [ih k (n + 1)]
      rfl

/-- The reference flush has strictly increasing indices. -/
theorem specEmitFrom_chain {α : Type} :
    ∀ (s : List (String × α)) (n : Nat),
      List.Chain' (fun a b => a.idx < b.idx) (specEmitFrom n s) := by
  intro s
  induction s with
  | nil => intro n; simp [specEmitFrom]
  | cons x s ih =>
    intro n
    rcases x with ⟨t, d⟩
    rw [specEmitFrom]
    by_cases ht : t ∈ SSE_EVENT_TYPES
    · rw [if_pos ht]
      rw [List.singleton_append]
      apply List.chain'_cons'.mpr
      refine ⟨?_, ih (n + 1)⟩
      intro b hb
      have hmem : b ∈ specEmitFrom (n + 1) s := List.mem_of_mem_head? hb
      have hb2 := specEmitFrom_idx_lb s (n + 1) b hmem
      show n < b.idx
      omega
    · rw [if_neg ht, List.nil_append]
      exact ih (n + 1)

/-- Every flushed message reproduces the log entry at its _idx position. -/
theorem specEmitFrom_mem_get {α : Type} :
    ∀ (s : List (String × α)) (n : Nat) (m : SseOut α),
      m ∈ specEmitFrom n s → s[m.idx - n]? = some (m.event, m.data) := by
  intro s
  induction s with
  | nil => intro n m h; exact absurd h (by simp [specEmitFrom])
  | cons x s ih =>
    intro n m h
    rcases x with ⟨t, d⟩
    rw [specEmitFrom] at h
    rcases List.mem_append.mp h with h1 | h2
    · by_cases ht : t ∈ SSE_EVENT_TYPES
      · rw [if_pos ht] at h1
        rcases List.mem_singleton.mp h1 with rfl
        simp
      · rw [if_neg ht] at h1
        exact absurd h1 (List.not_mem_nil m)
    · have hlb := specEmitFrom_idx_lb s (n + 1) m h2
      have hidx : m.idx - n = (m.idx - (n + 1)) + 1 := by omega
      rw [hidx]
      rw [List.getElem?_cons_succ]
      exact ih (n + 1) m h2

/-- Along a prefix chain of snapshots the head is a prefix of the last
snapshot. -/
theorem chain_pre_getLastD {α : Type} :
    ∀ (l : List (List (String × α))) (s : List (String × α)),
      List.Chain' (· <+: ·) (s :: l) → s <+: (s :: l).getLastD [] := by
  intro l
  induction l with
  | nil => intro s _; exact ⟨[], by simp⟩
  | cons s' l ih =>
    intro s h
    rw [List.chain'_cons] at h
    have h2 := ih s' h.2
    have heq : (s :: s' :: l).getLastD [] = (s' :: l).getLastD [] := by
      simp [List.getLastD_cons]
    rw [heq]
    exact h.1.trans h2

/-- Flushing a prefix snapshot from c and then the full log from the
advanced cursor flushes exactly the full log from c. -/
theorem sendEventsLoop_merge {α : Type} (s f : List (String × α)) (c : Nat)
    (h : s <+: f) :
    sendEventsLoop s c ++ sendEventsLoop f (max c s.length) =
      sendEventsLoop f c := by
  obtain ⟨e, rfl⟩ := h
  rw [sendEventsLoop_eq, sendEventsLoop_eq, sendEventsLoop_eq]
  by_cases hc : c ≤ s.length
  · rw [Nat.max_eq_right hc]
    rw [List.drop_append_of_le_length hc]
    rw [List.drop_left]
    rw [specEmitFrom_append]
    have harith : c + (s.drop c).length = s.length := by
      rw [List.length_drop]
      omega
    rw [harith]
  · rw [Nat.max_eq_left (by omega)]
    rw [List.drop_eq_nil_of_le (by omega : s.length ≤ c)]
    rfl

/-- Over any prefix chain of snapshots, the multiplexer rounds flush exactly
what one flush of the final snapshot from the initial cursor yields. -/
theorem streamRounds_eq_final {α : Type} :
    ∀ (l : List (List (String × α))) (s : List (String × α)) (c : Nat),
      List.Chain' (· <+: ·) (s :: l) →
      streamRounds (s :: l) c = sendEventsLoop ((s :: l).getLastD []) c := by
  intro l
  induction l with
  | nil =>
    intro s c _
    show sendEventsLoop s c ++ streamRounds [] (max c s.length) = _
    simp [streamRounds, List.getLastD]
  | cons s' l ih =>
    intro s c h
    rw [List.chain'_cons] at h
    show sendEventsLoop s c ++ streamRounds (s' :: l) (max c s.length) = _
    rw [ih s' (max c s.length) h.2]
    have hpre : s <+: (s' :: l).getLastD [] :=
      h.1.trans (chain_pre_getLastD l s' h.2)
    have heq : (s :: s' :: l).getLastD [] = (s' :: l).getLastD [] := by
      simp [List.getLastD_cons]
    rw [heq]
    exact sendEventsLoop_merge s _ c hpre

/-- Claim C8: over any completed run (snapshot chains of the same append-only
event log ending at the same final log), a subscription with cursor k yields
exactly the messages with log index at least k that a subscription from 0
yields, in the same strictly increasing index order, and every yielded
message carries an _idx equal to its position in the event log. -/
theorem C8_replay {α : Type} (snaps snaps' : List (List (String × α)))
    (k : Nat) (final : List (String × α))
    (hne : snaps ≠ []) (hne' : snaps' ≠ [])
    (hch : List.Chain' (· <+: ·) snaps) (hch' : List.Chain' (· <+: ·) snaps')
    (hlastA : snaps.getLastD [] = final) (hlast' : snaps'.getLastD [] = final) :
    mode_stream_events snaps (k : Int) =
      (mode_stream_events snaps' 0).filter (fun m => k ≤ m.idx) ∧
    (∀ m ∈ mode_stream_events snaps (k : Int),
      final[m.idx]? = some (m.event, m.data)) ∧
    List.Chain' (fun a b => a.idx < b.idx) (mode_stream_events snaps (k : Int)) := by
  have hk : (max 0 (k : Int)).toNat = k := by
    rw [max_eq_right (Int.natCast_nonneg k), Int.toNat_natCast]
  have hk0 : (max 0 (0 : Int)).toNat = 0 := rfl
  cases snaps with
  | nil => exact absurd rfl hne
  | cons s l =>
  cases snaps' with
  | nil => exact absurd rfl hne'
  | cons s' l' =>
  unfold mode_stream_events
  rw [hk, hk0]
  rw [streamRounds_eq_final l s k hch, streamRounds_eq_final l' s' 0 hch']
  rw [hlastA, hlast']
  refine ⟨?_, ?_, ?_⟩
  · rw [sendEventsLoop_eq, sendEventsLoop_eq, List.drop_zero]
    have hf := specEmitFrom_filter_ge final k 0
    simp only [Nat.zero_add] at hf
    exact hf.symm
  · intro m hm
    rw [sendEventsLoop_eq] at hm
    have hlb := specEmitFrom_idx_lb (final.drop k) k m hm
    have hget := specEmitFrom_mem_get (final.drop k) k m hm
    rw [List.getElem?_drop] at hget
    have harith : k + (m.idx - k) = m.idx := by omega
    rw [harith] at hget
    exact hget
  · rw [sendEventsLoop_eq]
    exact specEmitFrom_chain (final.drop k) k

/-- Witness for C8 at a concrete two-round run. -/
theorem C8_replay_witness :
    mode_stream_events [[("text", "a")], [("text", "a"), ("text", "b")]]
        ((1 : Nat) : Int) =
      (mode_stream_events [([("text", "a"), ("text", "b")] : List (String × String))]
          0).filter (fun m => 1 ≤ m.idx) :=
  (C8_replay [[("text", "a")], [("text", "a"), ("text", "b")]]
    [[("text", "a"), ("text", "b")]] 1 [("text", "a"), ("text", "b")]
    (by simp) (by simp)
    (List.chain'_pair.mpr ⟨[("text", "b")], rfl⟩)
    (List.chain'_singleton _) rfl rfl).1

/-- After erasing a key from the session table, looking it up fails. -/
theorem lookup_filter_self (tbl : TermTable) (sid : String) :
    (tbl.filter (fun e => e.1 ≠ sid)).lookup sid = none := by
  induction tbl with
  | nil => rfl
  | cons e t ih =>
    rcases e with ⟨k, v⟩
    rw [List.filter_cons]
    by_cases h : k = sid
    · have hd : (decide ((k, v).1 ≠ sid)) = false := by simp [h]
      rw [hd]
      simpa using ih
    · have hd : (decide ((k, v).1 ≠ sid)) = true := by simp [h]
      rw [hd]
      have hbeq : (sid == k) = false := by
        simp only [beq_eq_false_iff_ne]
        exact fun hh => h hh.symm
      simp only [if_true, List.lookup, hbeq]
      exact ih

/-- A key present in an association list is found by lookup. -/
theorem lookup_isSome_of_mem (a : String) (b : TermSession) :
    ∀ (l : TermTable), (a, b) ∈ l → (l.lookup a).isSome := by
  intro l
  induction l with
  | nil => intro h; exact absurd h (List.not_mem_nil _)
  | cons e t ih =>
    intro h
    rcases e with ⟨k, v⟩
    rcases List.mem_cons.mp h with heq | h2
    · have hk : k = a := by cases heq; rfl
      have hbeq : (a == k) = true := by simp [hk]
      simp [List.lookup, hbeq]
    · by_cases hk : a = k
      · have hbeq : (a == k) = true := by simp [hk]
        simp [List.lookup, hbeq]
      · have hbeq : (a == k) = false := by simp [hk]
        simp only [List.lookup, hbeq]
        exact ih h2

/-- Closing a session only removes entries with the closed id. -/
theorem mem_close_fst (killRaises : Bool) (tbl : TermTable) (sid : String)
    (e : String × TermSession) (h : e ∈ (close_session killRaises tbl sid).1) :
    e ∈ tbl ∧ e.1 ≠ sid := by
  unfold close_session at h
  cases hl : tbl.lookup sid with
  | none =>
    rw [hl] at h
    refine ⟨h, ?_⟩
    intro hcontra
    have hmem : (sid, e.2) ∈ tbl := by
      rcases e with ⟨k, v⟩
      cases hcontra
      exact h
    have hsome := lookup_isSome_of_mem sid e.2 tbl hmem
    rw [hl] at hsome
    exact absurd hsome (by simp)
  | some s =>
    rw [hl] at h
    have h2 := List.mem_filter.mp h
    refine ⟨h2.1, by simpa using h2.2⟩

/-- The table component of the cleanup fold. -/
theorem cleanup_fst (killRaises : Bool) (tbl : TermTable) (now : ℚ) :
    (cleanup_idle_sessions killRaises tbl now).1 =
      ((tbl.filter (fun e => now - e.2.last_activity > IDLE_TIMEOUT)).map
        (fun e => e.1)).foldl
        (fun t sid => (close_session killRaises t sid).1) tbl := by
  unfold cleanup_idle_sessions
  generalize ((tbl.filter (fun e => now - e.2.last_activity > IDLE_TIMEOUT)).map
    (fun e => e.1)) = keys
  have key : ∀ (ks : List String) (t : TermTable) (acts : List SysAction),
      (ks.foldl (fun acc sid =>
          let r := close_session killRaises acc.1 sid
          (r.1, acc.2 ++ r.2)) (t, acts)).1 =
        ks.foldl (fun t sid => (close_session killRaises t sid).1) t := by
    intro ks
    induction ks with
    | nil => intro t acts; rfl
    | cons sid ks ih => intro t acts; exact ih _ _
  exact key keys tbl []

/-- Surviving a fold of session closes means surviving every closed key. -/
theorem mem_foldl_close (killRaises : Bool) :
    ∀ (keys : List String) (t : TermTable) (e : String × TermSession),
      e ∈ keys.foldl (fun t sid => (close_session killRaises t sid).1) t →
      e ∈ t ∧ e.1 ∉ keys := by
  intro keys
  induction keys with
  | nil => intro t e h; exact ⟨h, by simp⟩
  | cons sid keys ih =>
    intro t e h
    have h2 := ih (close_session killRaises t sid).1 e h
    have h3 := mem_close_fst killRaises t sid e h2.1
    refine ⟨h3.1, ?_⟩
    intro hmem
    rcases List.mem_cons.mp hmem with rfl | hk
    · exact h3.2 rfl
    · exact h2.2 hk

/-- No idle session survives the cleanup pass. -/
theorem cleanup_no_stale (killRaises : Bool) (tbl : TermTable) (now : ℚ)
    (e : String × TermSession)
    (h : e ∈ (cleanup_idle_sessions killRaises tbl now).1) :
    now - e.2.last_activity ≤ IDLE_TIMEOUT := by
  rw [cleanup_fst] at h
  have h2 := mem_foldl_close killRaises _ tbl e h
  by_contra hcon
  apply h2.2
  exact List.mem_map.mpr ⟨e, List.mem_filter.mpr
    ⟨h2.1, by simpa using lt_of_not_le hcon⟩, rfl⟩

/-- Claim C9: destroying a terminal session signals the child first and
closes the descriptor last; destruction is idempotent (a second close of the
now-absent id is a no-op); and the connection handler reaps every session
idle for more than 600 seconds before deciding on a new connection, so no
stale session survives the connection prologue. -/
theorem C9_terminal_close :
    (∀ (killRaises : Bool) (tbl : TermTable) (sid : String) (s : TermSession)
        (p f : Nat),
      tbl.lookup sid = some s → s.pid = some p → p ≠ 0 →
      s.fd = some f → f ≠ 0 →
      (close_session killRaises tbl sid).2 =
        (SysAction.sigterm p ::
          (if killRaises then [] else [SysAction.waitpid p])) ++
        [SysAction.closeFd f]) ∧
    (∀ (killRaises : Bool) (tbl : TermTable) (sid : String),
      close_session killRaises (close_session killRaises tbl sid).1 sid =
        ((close_session killRaises tbl sid).1, [])) ∧
    (∀ (killRaises : Bool) (tbl : TermTable) (now : ℚ)
        (e : String × TermSession),
      e ∈ (cleanup_idle_sessions killRaises tbl now).1 →
      now - e.2.last_activity ≤ IDLE_TIMEOUT) ∧
    (∀ (killRaises : Bool) (tbl : TermTable) (now : ℚ) (newSid : String)
        (newPid newFd : Nat) (e : String × TermSession),
      e ∈ (websocket_terminal_connect killRaises tbl now newSid newPid newFd).1 →
      now - e.2.last_activity ≤ IDLE_TIMEOUT ∨
        e = (newSid, ⟨some newPid, some newFd, now⟩)) := by
  refine ⟨?_, ?_, ?_, ?_⟩
  · intro killRaises tbl sid s p f hl hp hpne hf hfne
    unfold close_session
    rw [hl]
    simp [hp, hf, hpne, hfne]
  · intro killRaises tbl sid
    cases hl : tbl.lookup sid with
    | none =>
      have h1 : close_session killRaises tbl sid = (tbl, []) := by
        unfold close_session
        rw [hl]
      rw [h1]
      exact h1
    | some s =>
      have h1 : (close_session killRaises tbl sid).1 =
          tbl.filter (fun e => e.1 ≠ sid) := by
        unfold close_session
        rw [hl]
      rw [h1]
      unfold close_session
      rw [lookup_filter_self]
  · exact cleanup_no_stale
  · intro killRaises tbl now newSid newPid newFd e h
    unfold websocket_terminal_connect at h
    by_cases hcap : ((cleanup_idle_sessions killRaises tbl now).1).length ≥
        MAX_TERMINALS
    · rw [if_pos hcap] at h
      exact Or.inl (cleanup_no_stale killRaises tbl now e h)
    · rw [if_neg hcap] at h
      rcases List.mem_append.mp h with h1 | h2
      · exact Or.inl (cleanup_no_stale killRaises tbl now e h1)
      · exact Or.inr (List.mem_singleton.mp h2)

/-- Witness for C9 at a concrete one-session table. -/
theorem C9_terminal_close_witness :
    (close_session false [("s1", ⟨some 5, some 7, 0⟩)] "s1").2 =
      (SysAction.sigterm 5 ::
        (if false then [] else [SysAction.waitpid 5])) ++
      [SysAction.closeFd 7] :=
  C9_terminal_close.1 false [("s1", ⟨some 5, some 7, 0⟩)] "s1"
    ⟨some 5, some 7, 0⟩ 5 7 (by decide) rfl (by decide) rfl (by decide)
